import Mathlib

set_option linter.unusedVariables false

/-!
# Verification of the spantools-go content engine against its specification

Shallow embedding of the `spantools-go` library (packages `mimetype`,
`encoding`/`encoders`, `models`, `errors_api`/`spanerrors`) and proofs of the
specification claims about it.

Conventions of the embedding:
* Go byte slices are `List Nat` (each entry one byte).
* Go strings are Lean `String`; `strings.ToLower` is modelled by ASCII
  lowercasing (`goToLower`), which agrees with Go on all ASCII input.
* Go errors built with `xerrors.New` / `xerrors.Errorf` with `%w` wrapping are
  the inductive `GoErr`; its `message` renders the `"msg: %w"` formatting.
* A codec invocation that can `panic` yields a `GoOutcome`, whose `panicked`
  constructor carries the recovered value; the engine's `defer`/`recover`
  blocks are the `safeDecode`/`safeEncode` matches.
* `io.Reader` sources are their full byte contents (the engine's sniffing
  path buffers the whole source anyway); writer effects are the returned
  byte list.
-/

namespace Spantools

/-! ## mimetype/mimetype.go -/

/-- `type MimeType string` from `mimetype/mimetype.go`. -/
abbrev MimeType := String

/-- `JSON = MimeType("application/json")`. -/
def JSON : MimeType := "application/json"

/-- `BSON = MimeType("application/bson")`. -/
def BSON : MimeType := "application/bson"

/-- `YAML = MimeType("application/yaml")`. -/
def YAML : MimeType := "application/yaml"

/-- `TEXT = MimeType("text/plain")`. -/
def TEXT : MimeType := "text/plain"

/-- `UNKNOWN = MimeType("")`. -/
def UNKNOWN : MimeType := ""

/-- `objectMimeTypes = []MimeType{JSON, BSON, YAML}`: the well-known object
formats, in their fixed declared order. -/
def objectMimeTypes : List MimeType := [JSON, BSON, YAML]

/-- ASCII lowercasing, modelling `strings.ToLower` (they agree on all ASCII
input, which covers every comparison the source performs). -/
def goToLower (s : String) : String := String.mk (s.data.map Char.toLower)

/-- `strings.HasSuffix(s, suffix)`. -/
def goHasSuffix (s suffixStr : String) : Bool :=
  suffixStr.data.isSuffixOf s.data

/-- `strings.Split` on a single-character separator, over the character
list of a string. -/
def splitOnChar (c : Char) : List Char → List (List Char)
  | [] => [[]]
  | x :: rest =>
    if x = c then [] :: splitOnChar c rest
    else
      match splitOnChar c rest with
      | [] => [[x]]
      | g :: gs => (x :: g) :: gs

/-- The subtype of a well-known mimetype:
`strings.Split(strings.ToLower(string(mimeType)), "/")[1]` from the loop body
of `FromString` (index 1 exists for each of the three constants; out of range
is modelled as `""`). -/
def subtypeOf (mt : MimeType) : String :=
  String.mk ((splitOnChar '/' (goToLower mt).data).getD 1 [])

/-- `mimetype.FromString`: lower-case; empty means `UNKNOWN`; exact
`"text/plain"`/`"text"` means `TEXT`; else the first object mimetype whose
subtype is a suffix of the input; else the lowered input as a custom type. -/
def FromString (incoming : String) : MimeType :=
  let incoming := goToLower incoming
  if incoming = "" then UNKNOWN
  else if incoming = "text/plain" ∨ incoming = "text" then TEXT
  else
    match objectMimeTypes.find? (fun mt => goHasSuffix incoming (subtypeOf mt)) with
    | some mt => mt
    | none => incoming

/-! ## encoding/engine.go — mimetype inference -/

/-- The dynamic shape of a Go `interface{}` argument, as far as
`pickContentMimeType`'s type switch observes it: `string`, `*string`, or
anything else. -/
inductive GoShape where
  | goString
  | goStringPtr
  | goOther
deriving DecidableEq, Repr

/-- `pickContentMimeType(mimeType, content, encoding)` from
`encoding/engine.go`: picks the mimetype when the caller passed `UNKNOWN`. -/
def pickContentMimeType (mimeType : MimeType) (content : GoShape)
    (encoding : Bool) : MimeType :=
  if mimeType = UNKNOWN then
    let useType : MimeType :=
      match content with
      | .goString => TEXT
      | .goStringPtr => TEXT
      | .goOther => JSON
    -- If we are decoding, we only want to force a text decoding if the
    -- receiver is a string.
    if encoding || useType = TEXT then useType else mimeType
  else mimeType

/-! ## Go errors and codec outcomes -/

/-- Errors produced with `golang.org/x/xerrors`.  `new` is `xerrors.New(msg)`;
`wrapf msg e` is `xerrors.Errorf(msg ++ ": %w", e)`; `wrapAfter this prev` is
the sniffing accumulator `xerrors.Errorf("decoding error: %w after: %w",
this, prev)` from `SpanEngine.sniffContent`. -/
inductive GoErr where
  | new (msg : String)
  | wrapf (msg : String) (inner : GoErr)
  | wrapAfter (this prev : GoErr)
deriving DecidableEq, Repr

/-- The rendered error message, as a character list. `%w` interpolation of a
wrapped error renders its message. -/
def GoErr.message : GoErr → List Char
  | .new m => m.data
  | .wrapf m e => m.data ++ (": ").data ++ e.message
  | .wrapAfter t p =>
      ("decoding error: ").data ++ t.message ++ (" after: ").data ++ p.message

/-- Whether `e` occurs in the wrap chain of `outer` (an error "preserved in
the chain" in the sense of `xerrors` wrapping). -/
def GoErr.contains : GoErr → GoErr → Bool
  | .new m, e => GoErr.new m == e
  | .wrapf m i, e => (GoErr.wrapf m i == e) || i.contains e
  | .wrapAfter t p, e => (GoErr.wrapAfter t p == e) || t.contains e || p.contains e

/-- `needle` occurs contiguously inside `hay`. -/
def SubList (needle hay : List Char) : Prop :=
  ∃ pre post, hay = pre ++ needle ++ post

/-- The outcome of invoking a Go codec: normal return without error, normal
return with an error, or a runtime panic carrying the recovered value. -/
inductive GoOutcome where
  | ok
  | err (e : GoErr)
  | panicked (v : GoErr)
deriving DecidableEq, Repr

/-! ## encoding/engine.go — the SpanEngine

A codec's `Encode`/`Decode` method is modelled as a function from the byte
contents it reads (for a decoder: the reader's bytes; for an encoder: an
opaque byte representation of the content value) to a `GoOutcome`.  The
engine's maps and the cached flat decoder list are carried verbatim. -/

/-- A registered decoder's `Decode` invocation on given source bytes. -/
abbrev DecoderFn := List Nat → GoOutcome

/-- A registered encoder's `Encode` invocation on given content. -/
abbrev EncoderFn := List Nat → GoOutcome

/-- The `SpanEngine` state that `Encode`/`Decode` consult: the
mimetype-indexed codec maps, the cached flat decoder list used for sniffing,
and the sniff flag. -/
structure EngineM where
  encoders : MimeType → Option EncoderFn
  decoders : MimeType → Option DecoderFn
  decoderList : List DecoderFn
  sniffMimeType : Bool

/-- `SpanEngine.safeDecode`: invokes the decoder under a `defer`/`recover`
block; a recovered panic value becomes
`xerrors.Errorf("panic during decode: %w", recovered)`. -/
def safeDecode (decoder : DecoderFn) (bytes : List Nat) : GoOutcome :=
  match decoder bytes with
  | .ok => .ok
  | .err e => .err e
  | .panicked v => .err (.wrapf "panic during decode" v)

/-- `SpanEngine.safeEncode`: same recovery wrapper for encoders. -/
def safeEncode (encoder : EncoderFn) (content : List Nat) : GoOutcome :=
  match encoder content with
  | .ok => .ok
  | .err e => .err e
  | .panicked v => .err (.wrapf "panic during encode" v)

/-- The error accumulation inside `sniffContent`'s loop body: the first
failure is kept as-is; each further failure becomes
`xerrors.Errorf("decoding error: %w after: %w", thisErr, decoderErr)`. -/
def sniffStep (decoderErr : Option GoErr) (thisErr : GoErr) : GoErr :=
  match decoderErr with
  | none => thisErr
  | some prev => .wrapAfter thisErr prev

/-- The loop body of `SpanEngine.sniffContent`: each registered decoder is
tried on a fresh buffer holding the full buffered source `bytes`; the first
success clears the accumulated error and stops; failures accumulate into
`decoderErr` (`wrapAfter`).  A panic leaking out of `safeDecode` would abort
the loop and propagate (it provably cannot). -/
def sniffLoop (bytes : List Nat) :
    List DecoderFn → Option GoErr → GoOutcome
  | [], decoderErr =>
      match decoderErr with
      | none => .ok
      | some e => .err e
  | decoder :: rest, decoderErr =>
      match safeDecode decoder bytes with
      | .ok =>
          -- decoded = true: break out; decoderErr is discarded.
          .ok
      | .err thisErr => sniffLoop bytes rest (some (sniffStep decoderErr thisErr))
      | .panicked v => .panicked v

/-- `SpanEngine.sniffContent`: buffers the whole source (here `bytes` is
already that buffer) and runs the decoder loop over the cached list. -/
def sniffContent (engine : EngineM) (bytes : List Nat) : GoOutcome :=
  sniffLoop bytes engine.decoderList none

/-- `SpanEngine.Decode`.  The receiver's dynamic shape drives
`pickContentMimeType`; the reader's close (when it is an `io.ReadCloser`) has
no observable effect on the returned value and is not modelled. -/
def engineDecode (engine : EngineM) (mimeType : MimeType) (receiver : GoShape)
    (bytes : List Nat) : GoOutcome :=
  let mt := pickContentMimeType mimeType receiver false
  if mt = UNKNOWN then
    if !engine.sniffMimeType then
      .err (.new "mimetype is unknown and sniffing is disabled")
    else sniffContent engine bytes
  else
    match engine.decoders mt with
    | none => .err (.new ("no decoder for " ++ mt))
    | some decoder =>
        match safeDecode decoder bytes with
        | .ok => .ok
        | .err e => .err (.wrapf "decode err" e)
        | .panicked v => .panicked v

/-- `SpanEngine.Encode`. -/
def engineEncode (engine : EngineM) (mimeType : MimeType) (shape : GoShape)
    (content : List Nat) : GoOutcome :=
  let mt := pickContentMimeType mimeType shape true
  match engine.encoders mt with
  | none => .err (.new ("no encoder for " ++ mt))
  | some encoder =>
      match safeEncode encoder content with
      | .ok => .ok
      | .err e => .err (.wrapf "encode err" e)
      | .panicked v => .panicked v

/-- The error-accumulation of the sniff loop over a list of attempt errors:
`none` before any failure, then each new failure wraps the previous chain. -/
def chainErrs (errs : List GoErr) : Option GoErr :=
  errs.foldl (fun acc e => some (sniffStep acc e)) none

/-! ## encoders/bson.go — multi-document framing

`bson.MarshalWithRegistry` and the single-document decode
(`bson.NewFromIOReader` + `bson.UnmarshalWithRegistry`, i.e.
`bsonEncoder.decodeSingle`) are the underlying driver's (de)serialization and
are taken as parameters `marshal` / `decodeSingle` of the framing
functions. -/

/-- `BsonListSepBytes`: the UTF-8 bytes of `BsonListSepString`, the U+241E
SYMBOL FOR RECORD SEPARATOR. -/
def bsonSep : List Nat := [0xE2, 0x90, 0x9E]

/-- `bytes.Index(data, BsonListSepBytes)`: the index of the first occurrence
of the separator, if any. -/
def bytesIndexSep : List Nat → Option Nat
  | [] => none
  | b :: rest =>
      if bsonSep.isPrefixOf (b :: rest) then some 0
      else (bytesIndexSep rest).map (· + 1)

/-- The token stream produced by `bufio.Scanner` with `splitBsonFunc` over a
fully buffered source: at end of input with no data left, stop; at a
separator occurrence, emit the preceding bytes and advance past the three
separator bytes; with trailing data and no separator, emit the rest as the
final token. -/
def splitBson (data : List Nat) : List (List Nat) :=
  if hdata : data = [] then []
  else
    match bytesIndexSep data with
    | some i => data.take i :: splitBson (data.drop (i + 3))
    | none => [data]
termination_by data.length
decreasing_by
  simp only [List.length_drop]
  have hlen : data.length ≠ 0 := fun h0 => hdata (List.length_eq_zero.mp h0)
  omega

/-- The number of left-to-right occurrences of the record separator in a
byte string (the scan consumes each occurrence it finds, like
`bytes.Count`). -/
def countSep : List Nat → Nat
  | [] => 0
  | b :: rest =>
      if bsonSep.isPrefixOf (b :: rest) then countSep ((b :: rest).drop 3) + 1
      else countSep rest
termination_by l => l.length
decreasing_by
  all_goals simp only [List.length_drop, List.length_cons]
  all_goals omega

/-- Documents joined with exactly one separator between consecutive
documents and none after the last: the shape of `encodeMany`'s output. -/
def joinSep : List (List Nat) → List Nat
  | [] => []
  | [d] => d
  | d :: rest₁ :: rest => d ++ bsonSep ++ joinSep (rest₁ :: rest)

/-- `bsonEncoder.encodeMany`: each element is encoded as an independent
document (`encodeSingle`, i.e. `marshal`), with the separator written after
every document except the final one; the first failing marshal aborts. -/
def encodeMany {α : Type} (marshal : α → Except GoErr (List Nat)) :
    List α → Except GoErr (List Nat)
  | [] => .ok []
  | [x] => marshal x
  | x :: x₁ :: rest => do
      let d ← marshal x
      let restBytes ← encodeMany marshal (x₁ :: rest)
      return d ++ bsonSep ++ restBytes

/-- The dynamic classification `bsonEncoder.Encode` performs on its content:
a `*bson.Raw` pre-encoded document, a (non-raw) slice/array, or any other
single value. -/
inductive BsonContent (α : Type) where
  | raw (bytes : List Nat)
  | seq (xs : List α)
  | single (x : α)

/-- `bsonEncoder.Encode`: a slice or array that is not a raw document goes
through `encodeMany`; everything else through `encodeSingle` (a raw
document's own bytes are written as-is; other values are marshalled). -/
def bsonEncode {α : Type} (marshal : α → Except GoErr (List Nat)) :
    BsonContent α → Except GoErr (List Nat)
  | .raw bytes => .ok bytes
  | .seq xs => encodeMany marshal xs
  | .single x => marshal x

/-- The scan loop of `bsonEncoder.decodeMany`: each scanner token is decoded
as one document into a fresh element, appended to the receiver slice in
encounter order; the first failure aborts. -/
def decodeChunks {α : Type} (decodeSingle : List Nat → Except GoErr α) :
    List (List Nat) → List α → Except GoErr (List α)
  | [], acc => .ok acc
  | chunk :: rest, acc =>
      match decodeSingle chunk with
      | .error e => .error e
      | .ok x => decodeChunks decodeSingle rest (acc ++ [x])

/-- `bsonEncoder.decodeMany`: fails unless the receiver is a pointer
(`isPtr` is `reflect.ValueOf(contentReceiver).Kind() == reflect.Ptr`);
otherwise scans the source with `splitBsonFunc` and decodes each token,
appending to the receiver slice's prior contents `init`. -/
def decodeMany {α : Type} (decodeSingle : List Nat → Except GoErr α)
    (isPtr : Bool) (init : List α) (data : List Nat) : Except GoErr (List α) :=
  if !isPtr then .error (.new "slice receiver must be pointer")
  else decodeChunks decodeSingle (splitBson data) init

/-- A sample marshaller for witnesses: a `Nat` below 256 is its own
single-byte document. -/
def natMarshal : Nat → Except GoErr (List Nat) := fun n => .ok [n]

/-- The matching sample single-document decoder. -/
def natUnmarshal : List Nat → Except GoErr Nat := fun l =>
  match l with
  | [n] => .ok n
  | _ => .error (.new "invalid document")

/-! ## encoding/json.go — JSON extensions for BSON types -/

/-- `primitive.Binary`: a BSON tagged-binary value (subtype byte plus
payload). -/
structure PrimitiveBinary where
  subtype : Nat
  data : List Nat
deriving DecidableEq, Repr

/-- The JSON-side value a conversion extension produces: a `uuid.UUID`, a
`spantypes.BinData` blob, or the generic `map[string]interface{}` a raw
document converts to (its contents are opaque here). -/
inductive JsonExtValue where
  | uuidVal (bytes : List Nat)
  | binDataVal (bytes : List Nat)
  | mapVal
deriving DecidableEq, Repr

/-- The outcome of a `ConvertExt` call: a converted value, or a panic. -/
inductive ExtOutcome where
  | ok (v : JsonExtValue)
  | panicked (v : GoErr)
deriving DecidableEq, Repr

/-- `jsonExtBsonBinary.ConvertExt` (encode direction): subtype `0x3`
converts to a UUID (`uuid.FromBytes`, which fails unless the payload is
exactly 16 bytes — the wrapped driver error's text is abbreviated here);
subtype `0x0` converts to `BinData`; any other subtype panics. -/
def jsonExtBsonBinary_ConvertExt (valueBin : PrimitiveBinary) : ExtOutcome :=
  if valueBin.subtype = 0x3 then
    if valueBin.data.length = 16 then .ok (.uuidVal valueBin.data)
    else .panicked (.wrapf "Error converting bson uuid"
      (.new "uuid: incorrect byte length"))
  else if valueBin.subtype = 0x0 then .ok (.binDataVal valueBin.data)
  else .panicked (.new "unsupported Binary BSON format")

/-- `jsonExtBsonBinary.UpdateExt` (decode direction): unconditionally
panics. -/
def jsonExtBsonBinary_UpdateExt (dest value : JsonExtValue) : GoOutcome :=
  .panicked (.new ("decoding to bson binary field not supported -- " ++
    "use uuid or BinData type as intermediary"))

/-- `jsonExtBsonRaw.ConvertExt` (encode direction): a non-empty raw document
is unmarshalled into a generic map via the engine's BSON registry
(`unmarshalMap` parameter); an unmarshal failure panics; an empty raw
document converts to the empty map without touching the driver. -/
def jsonExtBsonRaw_ConvertExt (unmarshalMap : List Nat → Except GoErr Unit)
    (valueRaw : List Nat) : ExtOutcome :=
  if valueRaw.length > 0 then
    match unmarshalMap valueRaw with
    | .ok _ => .ok .mapVal
    | .error e =>
        .panicked (.wrapf "error while unmarshalling bson for encoding" e)
  else .ok .mapVal

/-- `jsonExtBsonRaw.UpdateExt` (decode direction): unconditionally
panics. -/
def jsonExtBsonRaw_UpdateExt (dest value : JsonExtValue) : GoOutcome :=
  .panicked (.new "Decoding to BSON raw field not supported")

/-- A JSON decoder invocation whose payload populates a `bson.Raw`-typed
field of the receiver: the codec calls `jsonExtBsonRaw.UpdateExt`, whose
panic aborts the whole decode. -/
def jsonDecodeIntoBsonRaw : DecoderFn := fun _ =>
  jsonExtBsonRaw_UpdateExt .mapVal .mapVal

/-- Likewise for a `primitive.Binary`-typed field. -/
def jsonDecodeIntoBsonBinary : DecoderFn := fun _ =>
  jsonExtBsonBinary_UpdateExt .mapVal .mapVal

/-- A JSON encoder invocation whose content contains a `primitive.Binary` of
unsupported subtype `0x5`: `jsonExtBsonBinary.ConvertExt` panics. -/
def jsonEncodeBinarySubtype5 : EncoderFn := fun _ =>
  match jsonExtBsonBinary_ConvertExt ⟨0x5, []⟩ with
  | .ok _ => .ok
  | .panicked v => .panicked v

/-- An engine whose JSON decoder decodes into a `bson.Raw` receiver field. -/
def engJsonRawReceiver : EngineM :=
  ⟨fun _ => none,
   fun mt => if mt = JSON then some jsonDecodeIntoBsonRaw else none,
   [jsonDecodeIntoBsonRaw], false⟩

/-- An engine whose JSON decoder decodes into a `primitive.Binary` receiver
field. -/
def engJsonBinReceiver : EngineM :=
  ⟨fun _ => none,
   fun mt => if mt = JSON then some jsonDecodeIntoBsonBinary else none,
   [jsonDecodeIntoBsonBinary], false⟩

/-- An engine whose JSON encoder encodes a `primitive.Binary` of subtype
`0x5`. -/
def engJsonBinEncode : EngineM :=
  ⟨fun mt => if mt = JSON then some jsonEncodeBinarySubtype5 else none,
   fun _ => none, [], false⟩

/-! ## errors_api/initialization.go and spanerrors/initialization.go —
ErrorFromHeaders

The two packages' `ErrorFromHeaders` share the identical control flow
modelled here (they differ only in the capitalization of the bad-UUID
message, so failures are identified by constructor).  The headers store is a
`Get` function where `""` means absent (as for `http.Header.Get`);
`uuid.FromString` and the engine's JSON decode of the data bag are oracle
parameters. -/

/-- `SpanErrorType`: a class of error (identity only). -/
structure SpanErrorType where
  name : String
  apiCode : Int
  httpCode : Int
deriving DecidableEq, Repr

/-- Digit-string parsing: `none` unless non-empty and all decimal digits. -/
def digitsToNat (cs : List Char) : Option Nat :=
  if cs = [] then none
  else
    cs.foldl
      (fun acc c =>
        match acc with
        | none => none
        | some n => if c.isDigit then some (n * 10 + (c.toNat - 48)) else none)
      (some 0)

/-- `strconv.Atoi`: optional sign followed by decimal digits (overflow of
the platform int is not modelled). -/
def goAtoi (s : String) : Option Int :=
  match s.data with
  | [] => none
  | '+' :: rest => (digitsToNat rest).map (fun n => (n : Int))
  | '-' :: rest => (digitsToNat rest).map (fun n => -(n : Int))
  | cs => (digitsToNat cs).map (fun n => (n : Int))

/-- The distinct failure reasons `ErrorFromHeaders` can report, one
constructor per `xerrors.New` site. -/
inductive HeadersErr where
  | noErrorInHeaders
  | errorCodeNotInt
  | noErrorIndexProvided
  | noKnownErrorForCode (codeStr : String)
  | errorIdNotValidUUID
  | errorDataNotJSON
deriving DecidableEq, Repr

/-- The message of each failure (`errors_api` wording; `spanerrors` writes
`"error Id is not valid UUID"` instead for the bad-UUID case). -/
def HeadersErr.message : HeadersErr → String
  | .noErrorInHeaders => "no error in headers"
  | .errorCodeNotInt => "error-code not int"
  | .noErrorIndexProvided => "no error index provided"
  | .noKnownErrorForCode c => "no known error for code " ++ c
  | .errorIdNotValidUUID => "error ID is not valid UUID"
  | .errorDataNotJSON => "error data could not be parsed as JSON"

/-- A reconstructed `SpanError` (the fields the wire carries). -/
structure SpanErrorM where
  errorType : SpanErrorType
  message : String
  id : String
  hasData : Bool
deriving DecidableEq, Repr

/-- The `(spanError, hasError, err)` triple `ErrorFromHeaders` returns. -/
structure FromHeadersResult where
  spanError : Option SpanErrorM
  hasError : Bool
  err : Option HeadersErr
deriving DecidableEq, Repr

/-- `ErrorFromHeaders(headers, dataEngine, errorTypeCodeIndex)`.
`uuidParse` models `uuid.FromString` (`none` = invalid); `jsonParse` models
the engine's JSON decode of the `error-data` field (`none` = decode error);
`index` is the caller's code→type map, `none` modelling a nil map. -/
def ErrorFromHeaders (uuidParse : String → Option String)
    (jsonParse : String → Option Unit) (headers : String → String)
    (index : Option (Int → Option SpanErrorType)) : FromHeadersResult :=
  let errorCodeStr := headers "error-code"
  -- If there is no error code, then there is no error.
  if errorCodeStr = "" then ⟨none, false, some .noErrorInHeaders⟩
  else
    -- If the error code is not an int, then there is no error.
    match goAtoi errorCodeStr with
    | none => ⟨none, false, some .errorCodeNotInt⟩
    | some errorCode =>
      match index with
      | none => ⟨none, true, some .noErrorIndexProvided⟩
      | some idx =>
        match idx errorCode with
        | none => ⟨none, true, some (.noKnownErrorForCode errorCodeStr)⟩
        | some errorType =>
          let errorMessage := headers "error-message"
          match uuidParse (headers "error-id") with
          | none => ⟨none, true, some .errorIdNotValidUUID⟩
          | some errorID =>
            let errorDataStr := headers "error-data"
            if errorDataStr = "" then
              ⟨some ⟨errorType, errorMessage, errorID, false⟩, true, none⟩
            else
              match jsonParse errorDataStr with
              | none => ⟨none, true, some .errorDataNotJSON⟩
              | some _ =>
                  ⟨some ⟨errorType, errorMessage, errorID, true⟩, true, none⟩

/-- A headers store with a present but non-integer `error-code`. -/
def headersNonIntCode : String → String :=
  fun k => if k = "error-code" then "not an int" else ""

/-- Oracles for concrete instantiations. -/
def uuidParseAlways : String → Option String := fun s => some s

def jsonParseAlways : String → Option Unit := fun _ => some ()

/-! ## models (paging) — PagingReq.ToParams and PagingResp.ToHeaders

Header/param stores are written through `Set(key, value)`; the keys written
here are pairwise distinct, so the store is the list of written pairs. -/

/-- `PagingReq`: request paging parameters. -/
structure PagingReq where
  offset : Int
  limit : Int
deriving DecidableEq, Repr

/-- `PagingResp`: response paging metadata (embeds a `PagingReq`). -/
structure PagingResp where
  req : PagingReq
  totalItems : Int
  totalPages : Int
  currentPage : Int
  next : String
  previous : String
deriving DecidableEq, Repr

/-- `PagingReq.ToParams`: offset always; limit only if valid (> 0). -/
def PagingReq.toParams (r : PagingReq) : List (String × String) :=
  [("paging-offset", toString r.offset)]
    ++ (if r.limit > 0 then [("paging-limit", toString r.limit)] else [])

/-- `PagingResp.ToHeaders`: the request params, then each response field
only when "valid": totals if `> 0`, current page if `> -1`, links if
non-empty. -/
def PagingResp.toHeaders (p : PagingResp) : List (String × String) :=
  p.req.toParams
    ++ (if p.totalItems > 0 then
          [("paging-total-items", toString p.totalItems)] else [])
    ++ (if p.totalPages > 0 then
          [("paging-total-pages", toString p.totalPages)] else [])
    ++ (if p.currentPage > -1 then
          [("paging-current-page", toString p.currentPage)] else [])
    ++ (if p.previous ≠ "" then [("paging-previous", p.previous)] else [])
    ++ (if p.next ≠ "" then [("paging-next", p.next)] else [])

/-- `Get` on the written store (`none` when the key was never set). -/
def getHeader (hs : List (String × String)) (k : String) : Option String :=
  (hs.find? (fun kv => kv.1 == k)).map (fun kv => kv.2)

/-- Whether a key was written. -/
def hasHeader (hs : List (String × String)) (k : String) : Bool :=
  (getHeader hs k).isSome

/-! ### Concrete sample engines (used to instantiate theorems) -/

/-- A decoder that always fails with error message `m`. -/
def failingDecoder (m : String) : DecoderFn := fun _ => .err (.new m)

/-- A decoder that always succeeds. -/
def okDecoder : DecoderFn := fun _ => .ok

/-- A sniffing-disabled engine with one registered decoder. -/
def engNoSniff : EngineM :=
  ⟨fun _ => none, fun _ => none, [failingDecoder "bad json"], false⟩

/-- A sniffing engine whose first decoder fails and second succeeds. -/
def engSniffOk : EngineM :=
  ⟨fun _ => none, fun _ => none, [failingDecoder "bad json", okDecoder], true⟩

/-- A sniffing engine whose two decoders both fail. -/
def engSniffFail : EngineM :=
  ⟨fun _ => none, fun _ => none,
   [failingDecoder "bad json", failingDecoder "bad bson"], true⟩

/-- A decoder that panics, as a decoder invoked on a malformed payload
might. -/
def panickingDecoder (m : String) : DecoderFn := fun _ => .panicked (.new m)

/-- An engine whose JSON decoder and encoder both panic when invoked. -/
def engPanicking : EngineM :=
  ⟨fun mt => if mt = JSON then some (fun _ => .panicked (.new "encode boom")) else none,
   fun mt => if mt = JSON then some (panickingDecoder "decode boom") else none,
   [panickingDecoder "decode boom"], false⟩

end Spantools

namespace Spantools

/-- C8: `FromString(s)` first lower-cases `s`; the empty result maps to
`UNKNOWN`; the result is `TEXT` exactly when the lower-cased input is
`"text/plain"` or `"text"`; otherwise the first of `JSON`, `BSON`, `YAML` (in
that declared order) whose subtype (`"json"`, `"bson"`, `"yaml"`) is a suffix
of the lowered input is returned; if none matches, the lowered input itself is
returned as a custom mimetype.  Totality of the Lean function witnesses that
`FromString` never fails. -/
theorem fromString_spec (s : String) :
    (FromString s =
      (if goToLower s = "" then UNKNOWN
       else if goToLower s = "text/plain" ∨ goToLower s = "text" then TEXT
       else if goHasSuffix (goToLower s) "json" then JSON
       else if goHasSuffix (goToLower s) "bson" then BSON
       else if goHasSuffix (goToLower s) "yaml" then YAML
       else goToLower s))
    ∧ (FromString s = TEXT ↔
        (goToLower s = "text/plain" ∨ goToLower s = "text")) := by
  have hj : subtypeOf JSON = "json" := by decide
  have hb : subtypeOf BSON = "bson" := by decide
  have hy : subtypeOf YAML = "yaml" := by decide
  have hmain : FromString s =
      (if goToLower s = "" then UNKNOWN
       else if goToLower s = "text/plain" ∨ goToLower s = "text" then TEXT
       else if goHasSuffix (goToLower s) "json" then JSON
       else if goHasSuffix (goToLower s) "bson" then BSON
       else if goHasSuffix (goToLower s) "yaml" then YAML
       else goToLower s) := by
    unfold FromString
    by_cases h0 : goToLower s = ""
    · simp [h0]
    · by_cases h1 : goToLower s = "text/plain" ∨ goToLower s = "text"
      · simp [h0, h1]
      · simp only [h0, if_false, h1]
        simp only [objectMimeTypes, List.find?_cons, hj, hb, hy]
        by_cases hJ : goHasSuffix (goToLower s) "json"
        · simp [hJ]
        · by_cases hB : goHasSuffix (goToLower s) "bson"
          · simp [hJ, hB]
          · by_cases hY : goHasSuffix (goToLower s) "yaml"
            · simp [hJ, hB, hY]
            · simp [hJ, hB, hY, List.find?]
  refine ⟨hmain, ?_⟩
  rw [hmain]
  constructor
  · intro h
    by_cases h0 : goToLower s = ""
    · rw [if_pos h0] at h; exact absurd h (by decide)
    · rw [if_neg h0] at h
      by_cases h1 : goToLower s = "text/plain" ∨ goToLower s = "text"
      · exact h1
      · rw [if_neg h1] at h
        by_cases hJ : goHasSuffix (goToLower s) "json"
        · rw [if_pos hJ] at h; exact absurd h (by decide)
        · rw [if_neg hJ] at h
          by_cases hB : goHasSuffix (goToLower s) "bson"
          · rw [if_pos hB] at h; exact absurd h (by decide)
          · rw [if_neg hB] at h
            by_cases hY : goHasSuffix (goToLower s) "yaml"
            · rw [if_pos hY] at h; exact absurd h (by decide)
            · rw [if_neg hY] at h
              exact absurd (Or.inl h) h1
  · intro h1
    have h0 : goToLower s ≠ "" := by
      rcases h1 with h | h <;> rw [h] <;> decide
    rw [if_neg h0, if_pos h1]

/-- C3: with `UNKNOWN` passed, encoding resolves string-shaped content to
`TEXT` and everything else to `JSON`; decoding resolves to `TEXT` only for
string-shaped receivers and otherwise leaves the mimetype `UNKNOWN` (never
defaulting to `JSON`); a non-`UNKNOWN` mimetype is always passed through
unchanged.  `SpanEngine.Encode` calls `pickContentMimeType` with
`encoding = true` and `SpanEngine.Decode` with `encoding = false`. -/
theorem pickContentMimeType_spec (m : MimeType) (shape : GoShape) :
    (pickContentMimeType UNKNOWN shape true =
      (if shape = .goString ∨ shape = .goStringPtr then TEXT else JSON))
    ∧ (pickContentMimeType UNKNOWN shape false =
      (if shape = .goString ∨ shape = .goStringPtr then TEXT else UNKNOWN))
    ∧ (m ≠ UNKNOWN → ∀ encoding, pickContentMimeType m shape encoding = m) := by
  refine ⟨?_, ?_, ?_⟩
  · cases shape <;> decide
  · cases shape <;> decide
  · intro hm encoding
    simp [pickContentMimeType, hm]

/-- Witness for `pickContentMimeType_spec` at concrete inputs. -/
theorem pickContentMimeType_spec_witness :
    pickContentMimeType BSON .goOther true = BSON ∧
    pickContentMimeType BSON .goOther false = BSON := by
  have h := (pickContentMimeType_spec BSON .goOther).2.2 (by decide)
  exact ⟨h true, h false⟩

/-! ### Error-chain helper lemmas -/

theorem GoErr.contains_self (e : GoErr) : e.contains e = true := by
  cases e <;> simp [GoErr.contains]

theorem GoErr.contains_of_eq {a b : GoErr} (h : a = b) : a.contains b = true := by
  subst h; exact GoErr.contains_self a

theorem GoErr.contains_trans {a b c : GoErr}
    (hab : a.contains b = true) (hbc : b.contains c = true) :
    a.contains c = true := by
  induction a with
  | new m =>
      simp only [GoErr.contains, beq_iff_eq] at hab
      subst hab
      simpa [GoErr.contains] using hbc
  | wrapf m i ih =>
      simp only [GoErr.contains, Bool.or_eq_true, beq_iff_eq] at hab
      rcases hab with h | h
      · subst h; simpa [GoErr.contains] using hbc
      · simp only [GoErr.contains, Bool.or_eq_true]
        exact Or.inr (ih h)
  | wrapAfter t p iht ihp =>
      simp only [GoErr.contains, Bool.or_eq_true, beq_iff_eq] at hab
      rcases hab with (h | h) | h
      · subst h; simpa [GoErr.contains] using hbc
      · simp only [GoErr.contains, Bool.or_eq_true]
        exact Or.inl (Or.inr (iht h))
      · simp only [GoErr.contains, Bool.or_eq_true]
        exact Or.inr (ihp h)

theorem GoErr.wrapAfter_contains_left (t p : GoErr) :
    (GoErr.wrapAfter t p).contains t = true := by
  simp [GoErr.contains, GoErr.contains_self]

theorem GoErr.wrapAfter_contains_right (t p : GoErr) :
    (GoErr.wrapAfter t p).contains p = true := by
  simp [GoErr.contains, GoErr.contains_self]

/-- Substring facts: a needle is a sublist of itself, and sublists survive
appending on either side. -/
theorem SubList.refl (l : List Char) : SubList l l :=
  ⟨[], [], by simp⟩

theorem SubList.append_left {n h : List Char} (a : List Char)
    (hs : SubList n h) : SubList n (a ++ h) := by
  obtain ⟨pre, post, rfl⟩ := hs
  exact ⟨a ++ pre, post, by simp⟩

theorem SubList.append_right {n h : List Char} (b : List Char)
    (hs : SubList n h) : SubList n (h ++ b) := by
  obtain ⟨pre, post, rfl⟩ := hs
  exact ⟨pre, post ++ b, by simp⟩

/-- Any error preserved in a chain has its message rendered inside the
chain's message. -/
theorem GoErr.message_of_contains {outer e : GoErr}
    (h : outer.contains e = true) : SubList e.message outer.message := by
  induction outer with
  | new m =>
      simp only [GoErr.contains, beq_iff_eq] at h
      subst h; exact SubList.refl _
  | wrapf m i ih =>
      simp only [GoErr.contains, Bool.or_eq_true, beq_iff_eq] at h
      rcases h with h | h
      · subst h; exact SubList.refl _
      · simpa [GoErr.message, List.append_assoc] using
          SubList.append_left (m.data ++ (": ").data) (ih h)
  | wrapAfter t p iht ihp =>
      simp only [GoErr.contains, Bool.or_eq_true, beq_iff_eq] at h
      rcases h with (h | h) | h
      · subst h; exact SubList.refl _
      · have := SubList.append_right ((" after: ").data ++ p.message) (iht h)
        simpa [GoErr.message, List.append_assoc] using
          SubList.append_left (("decoding error: ").data) this
      · simpa [GoErr.message, List.append_assoc] using
          SubList.append_left
            (("decoding error: ").data ++ t.message ++ (" after: ").data)
            (ihp h)

/-! ### Sniff-loop lemmas -/

theorem safeDecode_ne_panicked (d : DecoderFn) (bytes : List Nat) (v : GoErr) :
    safeDecode d bytes ≠ .panicked v := by
  unfold safeDecode
  cases d bytes <;> simp

theorem safeEncode_ne_panicked (enc : EncoderFn) (content : List Nat) (v : GoErr) :
    safeEncode enc content ≠ .panicked v := by
  unfold safeEncode
  cases enc content <;> simp

theorem sniffLoop_ne_panicked (bytes : List Nat) :
    ∀ (ds : List DecoderFn) (acc : Option GoErr) (v : GoErr),
      sniffLoop bytes ds acc ≠ .panicked v := by
  intro ds
  induction ds with
  | nil =>
      intro acc v
      cases acc <;> simp [sniffLoop]
  | cons d rest ih =>
      intro acc v
      simp only [sniffLoop]
      cases hsd : safeDecode d bytes with
      | ok => simp
      | err e => exact ih _ v
      | panicked w => exact absurd hsd (safeDecode_ne_panicked d bytes w)

/-- The sniff loop succeeds as soon as one decoder succeeds, regardless of
what comes after it in the list and of the accumulated failures before it. -/
theorem sniffLoop_success (bytes : List Nat) :
    ∀ (pre : List DecoderFn) (d : DecoderFn) (post : List DecoderFn)
      (acc : Option GoErr),
      (∀ d' ∈ pre, ∃ e, safeDecode d' bytes = .err e) →
      safeDecode d bytes = .ok →
      sniffLoop bytes (pre ++ d :: post) acc = .ok := by
  intro pre
  induction pre with
  | nil =>
      intro d post acc _ hd
      simp [sniffLoop, hd]
  | cons p rest ih =>
      intro d post acc hpre hd
      obtain ⟨e, he⟩ := hpre p (by simp)
      simp only [List.cons_append, sniffLoop, he]
      exact ih d post _ (fun d' hmem => hpre d' (by simp [hmem])) hd

/-- When every decoder fails, the sniff loop folds the attempt errors with
`sniffStep` over the running accumulator. -/
theorem sniffLoop_all_fail (bytes : List Nat) :
    ∀ (ds : List DecoderFn) (errs : List GoErr) (acc : Option GoErr),
      ds.map (fun d => safeDecode d bytes) = errs.map GoOutcome.err →
      sniffLoop bytes ds acc =
        (match errs.foldl (fun a e => some (sniffStep a e)) acc with
         | none => GoOutcome.ok
         | some e => GoOutcome.err e) := by
  intro ds
  induction ds with
  | nil =>
      intro errs acc hmap
      have : errs = [] := by
        cases errs with
        | nil => rfl
        | cons e es => simp at hmap
      subst this
      cases acc <;> simp [sniffLoop]
  | cons d rest ih =>
      intro errs acc hmap
      cases errs with
      | nil => simp at hmap
      | cons e es =>
          simp only [List.map_cons, List.cons.injEq] at hmap
          obtain ⟨hd, hrest⟩ := hmap
          simp only [sniffLoop, hd, List.foldl_cons]
          exact ih es _ hrest

/-- Folding errors starting from a present accumulator always stays
present. -/
theorem foldl_sniffStep_some (errs : List GoErr) (a : GoErr) :
    ∃ c, errs.foldl (fun acc e => some (sniffStep acc e)) (some a) = some c := by
  induction errs generalizing a with
  | nil => exact ⟨a, rfl⟩
  | cons e es ih => simpa [List.foldl_cons] using ih (sniffStep (some a) e)

/-- A non-empty error list folds to a present chain. -/
theorem chainErrs_isSome (errs : List GoErr) (hne : errs ≠ []) :
    ∃ c, chainErrs errs = some c := by
  cases errs with
  | nil => exact absurd rfl hne
  | cons e es =>
      simpa [chainErrs, List.foldl_cons, sniffStep] using
        foldl_sniffStep_some es e

/-- The chain of `init ++ [last]` is `last` wrapped around the chain of
`init` (or `last` itself when `init` is empty). -/
theorem chainErrs_append_single (init : List GoErr) (last : GoErr) :
    chainErrs (init ++ [last]) = some (sniffStep (chainErrs init) last) := by
  simp [chainErrs, List.foldl_append]

/-- Every attempt error is preserved inside the folded chain. -/
theorem chainErrs_contains (errs : List GoErr) :
    ∀ (acc : Option GoErr) (c : GoErr),
      errs.foldl (fun a e => some (sniffStep a e)) acc = some c →
      (∀ e ∈ errs, c.contains e = true) ∧
      (∀ a, acc = some a → c.contains a = true) := by
  induction errs with
  | nil =>
      intro acc c hfold
      simp only [List.foldl_nil] at hfold
      refine ⟨by simp, ?_⟩
      intro a ha
      rw [ha] at hfold
      have hac : a = c := by injection hfold
      subst hac
      exact GoErr.contains_self a
  | cons e es ih =>
      intro acc c hfold
      simp only [List.foldl_cons] at hfold
      obtain ⟨hmem, hacc⟩ := ih _ c hfold
      have hstep : c.contains (sniffStep acc e) = true := hacc _ rfl
      have he : c.contains e = true := by
        cases acc with
        | none => simpa [sniffStep] using hstep
        | some prev =>
            exact GoErr.contains_trans hstep (GoErr.wrapAfter_contains_left e prev)
      refine ⟨?_, ?_⟩
      · intro e' he'
        rcases List.mem_cons.mp he' with rfl | hmem'
        · exact he
        · exact hmem e' hmem'
      · intro a ha
        subst ha
        exact GoErr.contains_trans hstep (by
          simpa [sniffStep] using GoErr.wrapAfter_contains_right e a)

/-- C1: on a `Decode` call whose resolved mimetype is still `UNKNOWN` after
inference (an `UNKNOWN` argument with a non-string receiver): with the sniff
flag off, `Decode` fails with the sniffing-disabled error without consulting
any decoder (the result is this constant for every decoder list); with the
flag on, the buffered source is offered to each cached decoder in order, the
first success makes `Decode` return nil whatever decoders follow, and if all
fail the result is the fold of every attempt's error, in which every failure
is preserved and whose outermost wrap is the last decoder's error wrapped
around the chain of all previous ones. -/
theorem engineDecode_sniffing_spec (engine : EngineM) (bytes : List Nat) :
    (engine.sniffMimeType = false →
      engineDecode engine UNKNOWN .goOther bytes =
        .err (.new "mimetype is unknown and sniffing is disabled"))
    ∧ (engine.sniffMimeType = true →
        (∀ (pre : List DecoderFn) (d : DecoderFn) (post : List DecoderFn),
          engine.decoderList = pre ++ d :: post →
          (∀ d' ∈ pre, ∃ e, safeDecode d' bytes = .err e) →
          safeDecode d bytes = .ok →
          engineDecode engine UNKNOWN .goOther bytes = .ok)
        ∧ (∀ errs : List GoErr, errs ≠ [] →
            engine.decoderList.map (fun d => safeDecode d bytes) =
              errs.map GoOutcome.err →
            ∃ chain, chainErrs errs = some chain
              ∧ engineDecode engine UNKNOWN .goOther bytes = .err chain
              ∧ (∀ e ∈ errs, chain.contains e = true)
              ∧ (∀ last, errs = [last] → chain = last)
              ∧ (∀ init last, errs = init ++ [last] → init ≠ [] →
                  ∀ c', chainErrs init = some c' →
                    chain = .wrapAfter last c'))) := by
  have hpick : pickContentMimeType UNKNOWN .goOther false = UNKNOWN := by decide
  have hbranch : engineDecode engine UNKNOWN .goOther bytes =
      (if !engine.sniffMimeType then
        .err (.new "mimetype is unknown and sniffing is disabled")
      else sniffContent engine bytes) := by
    simp only [engineDecode]
    rw [hpick, if_pos rfl]
  constructor
  · intro hsniff
    rw [hbranch, hsniff]
    simp
  · intro hsniff
    have hdec : engineDecode engine UNKNOWN .goOther bytes =
        sniffLoop bytes engine.decoderList none := by
      rw [hbranch, hsniff]
      simp [sniffContent]
    constructor
    · intro pre d post hlist hpre hd
      rw [hdec, hlist]
      exact sniffLoop_success bytes pre d post none hpre hd
    · intro errs hne hmap
      obtain ⟨chain, hchain⟩ := chainErrs_isSome errs hne
      refine ⟨chain, hchain, ?_, ?_, ?_, ?_⟩
      · rw [hdec, sniffLoop_all_fail bytes engine.decoderList errs none hmap]
        rw [chainErrs] at hchain
        rw [hchain]
      · exact (chainErrs_contains errs none chain hchain).1
      · intro last hlast
        subst hlast
        have h' : last = chain := by simpa [chainErrs, sniffStep] using hchain
        exact h'.symm
      · intro init last hsplit hinit c' hc'
        subst hsplit
        rw [chainErrs_append_single init last, hc'] at hchain
        simpa [sniffStep] using hchain.symm

/-- Witness for `engineDecode_sniffing_spec` on the concrete sample
engines. -/
theorem engineDecode_sniffing_spec_witness :
    engineDecode engNoSniff UNKNOWN .goOther [] =
      .err (.new "mimetype is unknown and sniffing is disabled")
    ∧ engineDecode engSniffOk UNKNOWN .goOther [] = .ok
    ∧ engineDecode engSniffFail UNKNOWN .goOther [] =
        .err (.wrapAfter (.new "bad bson") (.new "bad json")) := by
  refine ⟨?_, ?_, ?_⟩
  · exact (engineDecode_sniffing_spec engNoSniff []).1 rfl
  · exact (engineDecode_sniffing_spec engSniffOk []).2 rfl |>.1
      [failingDecoder "bad json"] okDecoder [] rfl
      (by intro d' hd'
          simp only [List.mem_singleton] at hd'
          exact ⟨.new "bad json", by rw [hd']; rfl⟩)
      rfl
  · obtain ⟨chain, hchain, hres, _, _, hwrap⟩ :=
      (engineDecode_sniffing_spec engSniffFail []).2 rfl |>.2
        [.new "bad json", .new "bad bson"] (by simp) rfl
    have : chain = .wrapAfter (.new "bad bson") (.new "bad json") :=
      hwrap [.new "bad json"] (.new "bad bson") rfl (by simp)
        (.new "bad json") rfl
    rw [this] at hres
    exact hres

/-- C2: a panic raised inside a registered codec never escapes
`Engine.Encode`/`Engine.Decode`: the engine result is never a panic, and when
the codec's invocation panics with value `v`, the call returns an ordinary
error whose rendered message includes `v`'s message. -/
theorem engine_panic_safety (engine : EngineM) (mimeType : MimeType)
    (shape : GoShape) (bytes : List Nat) :
    (∀ v, engineDecode engine mimeType shape bytes ≠ .panicked v)
    ∧ (∀ v, engineEncode engine mimeType shape bytes ≠ .panicked v)
    ∧ (∀ (d : DecoderFn) (v : GoErr),
        engine.decoders (pickContentMimeType mimeType shape false) = some d →
        pickContentMimeType mimeType shape false ≠ UNKNOWN →
        d bytes = .panicked v →
        engineDecode engine mimeType shape bytes =
          .err (.wrapf "decode err" (.wrapf "panic during decode" v))
        ∧ SubList v.message
            (GoErr.wrapf "decode err" (.wrapf "panic during decode" v)).message)
    ∧ (∀ (enc : EncoderFn) (v : GoErr),
        engine.encoders (pickContentMimeType mimeType shape true) = some enc →
        enc bytes = .panicked v →
        engineEncode engine mimeType shape bytes =
          .err (.wrapf "encode err" (.wrapf "panic during encode" v))
        ∧ SubList v.message
            (GoErr.wrapf "encode err" (.wrapf "panic during encode" v)).message) := by
  refine ⟨?_, ?_, ?_, ?_⟩
  · intro v
    unfold engineDecode
    by_cases hu : pickContentMimeType mimeType shape false = UNKNOWN
    · simp only [hu, if_pos rfl]
      by_cases hs : engine.sniffMimeType
      · simpa [hs, sniffContent] using
          sniffLoop_ne_panicked bytes engine.decoderList none v
      · simp [hs]
    · simp only [if_neg hu]
      cases engine.decoders (pickContentMimeType mimeType shape false) with
      | none => simp
      | some d =>
          cases hsd : safeDecode d bytes with
          | ok => simp [hsd]
          | err e => simp [hsd]
          | panicked w => exact absurd hsd (safeDecode_ne_panicked d bytes w)
  · intro v
    unfold engineEncode
    cases henc : engine.encoders (pickContentMimeType mimeType shape true) with
    | none => simp [henc]
    | some enc =>
        cases hse : safeEncode enc bytes with
        | ok => simp [henc, hse]
        | err e => simp [henc, hse]
        | panicked w => exact absurd hse (safeEncode_ne_panicked enc bytes w)
  · intro d v hd hu hpanic
    have hsd : safeDecode d bytes = .err (.wrapf "panic during decode" v) := by
      simp [safeDecode, hpanic]
    refine ⟨?_, ?_⟩
    · simp [engineDecode, hu, hd, hsd]
    · have : SubList v.message (GoErr.wrapf "panic during decode" v).message := by
        simpa [GoErr.message, List.append_assoc] using
          SubList.append_left (("panic during decode").data ++ (": ").data)
            (SubList.refl v.message)
      simpa [GoErr.message, List.append_assoc] using
        SubList.append_left (("decode err").data ++ (": ").data) this
  · intro enc v henc hpanic
    have hse : safeEncode enc bytes = .err (.wrapf "panic during encode" v) := by
      simp [safeEncode, hpanic]
    refine ⟨?_, ?_⟩
    · simp [engineEncode, henc, hse]
    · have : SubList v.message (GoErr.wrapf "panic during encode" v).message := by
        simpa [GoErr.message, List.append_assoc] using
          SubList.append_left (("panic during encode").data ++ (": ").data)
            (SubList.refl v.message)
      simpa [GoErr.message, List.append_assoc] using
        SubList.append_left (("encode err").data ++ (": ").data) this

/-! ### Separator-scanning lemmas -/

theorem isPrefixOf_append_of_le (p : List Nat) :
    ∀ (d t : List Nat), p.length ≤ d.length →
      p.isPrefixOf (d ++ t) = p.isPrefixOf d := by
  induction p with
  | nil => intro d t _; simp [List.isPrefixOf]
  | cons a as ih =>
      intro d t hlen
      cases d with
      | nil => simp at hlen
      | cons b bs =>
          simp only [List.cons_append, List.isPrefixOf, List.append_eq]
          rw [ih bs t (by simpa using hlen)]

theorem isPrefixOf_self_append (p t : List Nat) :
    p.isPrefixOf (p ++ t) = true := by
  induction p with
  | nil => simp [List.isPrefixOf]
  | cons a as ih => simp [List.isPrefixOf, ih]

/-- No separator occurrence straddles the boundary into a separator that
follows one byte of other content: the separator's three bytes have no
self-overlap. -/
theorem sep_not_prefix_cons (b : Nat) (t : List Nat) :
    bsonSep.isPrefixOf (b :: (bsonSep ++ t)) = false := by
  simp [bsonSep, List.isPrefixOf]

theorem sep_not_prefix_cons₂ (b c : Nat) (t : List Nat) :
    bsonSep.isPrefixOf (b :: c :: (bsonSep ++ t)) = false := by
  simp [bsonSep, List.isPrefixOf]

theorem notPrefix_of_eq_false {p l : List Nat} (h : p.isPrefixOf l = false) :
    ¬(p.isPrefixOf l = true) := by
  rw [h]
  exact Bool.false_ne_true

theorem countSep_nil : countSep [] = 0 := by
  simp only [countSep]

/-- Unfolding equation for `countSep` at a cons cell. -/
theorem countSep_cons (b : Nat) (rest : List Nat) :
    countSep (b :: rest) =
      if bsonSep.isPrefixOf (b :: rest) then countSep ((b :: rest).drop 3) + 1
      else countSep rest := by
  simp only [countSep]

/-- From a separator-free `b :: d`: no occurrence starts at the head, and
the tail is separator-free. -/
theorem countSep_tail {b : Nat} {d : List Nat}
    (h : countSep (b :: d) = 0) :
    bsonSep.isPrefixOf (b :: d) = false ∧ countSep d = 0 := by
  cases hb : bsonSep.isPrefixOf (b :: d) with
  | true =>
      rw [countSep_cons, if_pos hb] at h
      omega
  | false =>
      rw [countSep_cons, if_neg (by simp [hb])] at h
      exact ⟨rfl, h⟩

theorem countSep_sep_append (t : List Nat) :
    countSep (bsonSep ++ t) = countSep t + 1 := by
  have h1 : bsonSep ++ t = 226 :: 144 :: 158 :: t := by simp [bsonSep]
  rw [h1, countSep_cons,
      if_pos (show bsonSep.isPrefixOf (226 :: 144 :: 158 :: t) = true by
        simp [bsonSep, List.isPrefixOf])]
  simp

/-- Scanning a separator-free document followed by a separator counts that
separator plus whatever follows it. -/
theorem countSep_append_sep (t : List Nat) :
    ∀ d, countSep d = 0 → countSep (d ++ bsonSep ++ t) = countSep t + 1 := by
  intro d
  induction d with
  | nil =>
      intro _
      simpa using countSep_sep_append t
  | cons b d' ih =>
      intro h0
      obtain ⟨hp, hd'⟩ := countSep_tail h0
      have hpf : bsonSep.isPrefixOf (b :: (d' ++ bsonSep ++ t)) = false := by
        rcases d' with _ | ⟨c, d''⟩
        · simpa using sep_not_prefix_cons b t
        · rcases d'' with _ | ⟨e, d'''⟩
          · simpa using sep_not_prefix_cons₂ b c t
          · have hlen : bsonSep.length ≤ (b :: c :: e :: d''').length := by
              simp [bsonSep]
            have := isPrefixOf_append_of_le bsonSep (b :: c :: e :: d''')
              (bsonSep ++ t) hlen
            rw [show b :: (c :: e :: d''' ++ bsonSep ++ t) =
                  (b :: c :: e :: d''') ++ (bsonSep ++ t) by simp, this]
            exact hp
      rw [List.cons_append, List.cons_append, countSep_cons,
          if_neg (notPrefix_of_eq_false hpf)]
      simpa using ih hd'

/-- A separator-free byte string has no separator occurrence for
`bytes.Index` to find. -/
theorem bytesIndexSep_of_sepFree :
    ∀ d, countSep d = 0 → bytesIndexSep d = none := by
  intro d
  induction d with
  | nil => intro _; rfl
  | cons b d' ih =>
      intro h0
      obtain ⟨hp, hd'⟩ := countSep_tail h0
      rw [bytesIndexSep, if_neg (by simp [hp]), ih hd']
      rfl

/-- The first separator occurrence after a separator-free document sits
exactly at the document's end. -/
theorem bytesIndexSep_append_sep (t : List Nat) :
    ∀ d, countSep d = 0 →
      bytesIndexSep (d ++ bsonSep ++ t) = some d.length := by
  intro d
  induction d with
  | nil =>
      intro _
      have h1 : ([] : List Nat) ++ bsonSep ++ t = 226 :: 144 :: 158 :: t := by
        simp [bsonSep]
      rw [h1, bytesIndexSep,
          if_pos (show bsonSep.isPrefixOf (226 :: 144 :: 158 :: t) = true by
            simp [bsonSep, List.isPrefixOf])]
      rfl
  | cons b d' ih =>
      intro h0
      obtain ⟨hp, hd'⟩ := countSep_tail h0
      have hpf : bsonSep.isPrefixOf (b :: (d' ++ bsonSep ++ t)) = false := by
        rcases d' with _ | ⟨c, d''⟩
        · simpa using sep_not_prefix_cons b t
        · rcases d'' with _ | ⟨e, d'''⟩
          · simpa using sep_not_prefix_cons₂ b c t
          · have hlen : bsonSep.length ≤ (b :: c :: e :: d''').length := by
              simp [bsonSep]
            have := isPrefixOf_append_of_le bsonSep (b :: c :: e :: d''')
              (bsonSep ++ t) hlen
            rw [show b :: (c :: e :: d''' ++ bsonSep ++ t) =
                  (b :: c :: e :: d''') ++ (bsonSep ++ t) by simp, this]
            exact hp
      rw [List.cons_append, List.cons_append, bytesIndexSep,
          if_neg (notPrefix_of_eq_false hpf), ih hd']
      rfl

/-- Unfolding `splitBson` when the index search finds an occurrence. -/
theorem splitBson_idx_some {data : List Nat} {i : Nat} (hne : data ≠ [])
    (hidx : bytesIndexSep data = some i) :
    splitBson data = data.take i :: splitBson (data.drop (i + 3)) := by
  conv_lhs => rw [splitBson]
  rw [dif_neg hne, hidx]

/-- Unfolding `splitBson` when there is no occurrence. -/
theorem splitBson_idx_none {data : List Nat} (hne : data ≠ [])
    (hidx : bytesIndexSep data = none) :
    splitBson data = [data] := by
  conv_lhs => rw [splitBson]
  rw [dif_neg hne, hidx]

theorem splitBson_nil : splitBson [] = [] := by
  rw [splitBson]
  simp

/-- Scanning a separator-free, non-empty byte string yields it as the single
token. -/
theorem splitBson_sepFree (d : List Nat) (hne : d ≠ []) (h0 : countSep d = 0) :
    splitBson d = [d] :=
  splitBson_idx_none hne (bytesIndexSep_of_sepFree d h0)

/-- The scanner inverts the joiner on separator-free, non-empty
documents. -/
theorem splitBson_joinSep :
    ∀ docs : List (List Nat),
      (∀ doc ∈ docs, countSep doc = 0 ∧ doc ≠ []) →
      splitBson (joinSep docs) = docs := by
  intro docs
  induction docs with
  | nil =>
      intro _
      rw [show joinSep [] = [] from rfl, splitBson_nil]
  | cons d rest ih =>
      intro hdocs
      obtain ⟨hd0, hdne⟩ := hdocs d (by simp)
      cases rest with
      | nil => simpa [joinSep] using splitBson_sepFree d hdne hd0
      | cons r rs =>
          have hjoin : joinSep (d :: r :: rs) = d ++ bsonSep ++ joinSep (r :: rs) := by
            simp [joinSep]
          rw [hjoin]
          have hne : d ++ bsonSep ++ joinSep (r :: rs) ≠ [] := by
            simp [bsonSep]
          rw [splitBson_idx_some hne
              (bytesIndexSep_append_sep (joinSep (r :: rs)) d hd0)]
          have htake : (d ++ bsonSep ++ joinSep (r :: rs)).take d.length = d := by
            rw [List.append_assoc]
            exact List.take_left d (bsonSep ++ joinSep (r :: rs))
          have hdrop :
              (d ++ bsonSep ++ joinSep (r :: rs)).drop (d.length + 3) =
                joinSep (r :: rs) := by
            have hlen : (d ++ bsonSep).length = d.length + 3 := by
              simp [bsonSep]
            calc (d ++ bsonSep ++ joinSep (r :: rs)).drop (d.length + 3)
                = ((d ++ bsonSep) ++ joinSep (r :: rs)).drop ((d ++ bsonSep).length) := by
                  rw [hlen, List.append_assoc]
              _ = joinSep (r :: rs) := List.drop_left _ _
          rw [htake, hdrop, ih (fun doc hdoc => hdocs doc (by simp [hdoc]))]

/-- Counting separators in a join of separator-free documents yields one per
consecutive pair. -/
theorem countSep_joinSep :
    ∀ docs : List (List Nat), docs ≠ [] →
      (∀ doc ∈ docs, countSep doc = 0) →
      countSep (joinSep docs) = docs.length - 1 := by
  intro docs
  induction docs with
  | nil => intro h; exact absurd rfl h
  | cons d rest ih =>
      intro _ hdocs
      cases rest with
      | nil => simpa [joinSep] using hdocs d (by simp)
      | cons r rs =>
          have hjoin : joinSep (d :: r :: rs) = d ++ bsonSep ++ joinSep (r :: rs) := by
            simp [joinSep]
          rw [hjoin,
              countSep_append_sep (joinSep (r :: rs)) d (hdocs d (by simp)),
              ih (by simp) (fun doc hdoc => hdocs doc (by simp [hdoc]))]
          simp

/-- `encodeMany` produces exactly the join of the element documents when
every element marshals. -/
theorem encodeMany_eq_joinSep {α : Type} (marshal : α → Except GoErr (List Nat))
    (docOf : α → List Nat) :
    ∀ xs : List α, (∀ x ∈ xs, marshal x = .ok (docOf x)) →
      encodeMany marshal xs = .ok (joinSep (xs.map docOf)) := by
  intro xs
  induction xs with
  | nil => intro _; simp [encodeMany, joinSep]
  | cons x rest ih =>
      intro hm
      cases rest with
      | nil => simpa [encodeMany, joinSep] using hm x (by simp)
      | cons y ys =>
          have hx : marshal x = .ok (docOf x) := hm x (by simp)
          have hrest := ih (fun x' hx' => hm x' (by simp [hx']))
          simp only [encodeMany, hx, hrest, joinSep, List.map_cons]
          rfl

/-- Decoding a list of per-element documents appends the elements in
encounter order. -/
theorem decodeChunks_map {α : Type} (dec : List Nat → Except GoErr α)
    (docOf : α → List Nat) :
    ∀ (xs acc : List α), (∀ x ∈ xs, dec (docOf x) = .ok x) →
      decodeChunks dec (xs.map docOf) acc = .ok (acc ++ xs) := by
  intro xs
  induction xs with
  | nil => intro acc _; simp [decodeChunks]
  | cons x rest ih =>
      intro acc hdec
      have hx : dec (docOf x) = .ok x := hdec x (by simp)
      simp only [List.map_cons, decodeChunks, hx]
      rw [ih (acc ++ [x]) (fun x' hx' => hdec x' (by simp [hx']))]
      simp

/-- C4: encoding a non-raw slice of `n ≥ 1` elements writes the `n`
independently marshalled documents joined by exactly one separator between
consecutive documents and none after the last; when the documents themselves
are free of the separator bytes, the output contains exactly `n - 1`
occurrences of the three-byte separator — in particular zero for a 1-element
slice. -/
theorem bsonEncode_seq_framing {α : Type}
    (marshal : α → Except GoErr (List Nat)) (docOf : α → List Nat)
    (xs : List α) (hmarshal : ∀ x ∈ xs, marshal x = .ok (docOf x))
    (hne : xs ≠ []) :
    bsonEncode marshal (.seq xs) = .ok (joinSep (xs.map docOf))
    ∧ ((∀ x ∈ xs, countSep (docOf x) = 0) →
        countSep (joinSep (xs.map docOf)) = xs.length - 1)
    ∧ (∀ x, xs = [x] → countSep (docOf x) = 0 →
        countSep (joinSep (xs.map docOf)) = 0) := by
  refine ⟨encodeMany_eq_joinSep marshal docOf xs hmarshal, ?_, ?_⟩
  · intro hfree
    rw [countSep_joinSep (xs.map docOf) (by simpa using hne) ?_]
    · simp
    · intro doc hdoc
      obtain ⟨x, hx, rfl⟩ := List.mem_map.mp hdoc
      exact hfree x hx
  · intro x hx h0
    subst hx
    simpa [joinSep] using h0

/-- A one-byte document never contains the three-byte separator. -/
theorem countSep_singleton (n : Nat) : countSep [n] = 0 := by
  rw [countSep_cons, if_neg (by simp [bsonSep, List.isPrefixOf])]
  exact countSep_nil

/-- Witness for `bsonEncode_seq_framing`: three one-byte documents, and the
separator occurs twice; a single document occurs with no separator. -/
theorem bsonEncode_seq_framing_witness :
    bsonEncode natMarshal (.seq [1, 2, 3]) =
      .ok [1, 0xE2, 0x90, 0x9E, 2, 0xE2, 0x90, 0x9E, 3]
    ∧ countSep [1, 0xE2, 0x90, 0x9E, 2, 0xE2, 0x90, 0x9E, 3] = 2
    ∧ bsonEncode natMarshal (.seq [7]) = .ok [7]
    ∧ countSep [7] = 0 := by
  obtain ⟨henc, hcount, _⟩ :=
    bsonEncode_seq_framing natMarshal (fun n => [n]) [1, 2, 3]
      (by intro x hx; rfl) (by simp)
  obtain ⟨henc₁, _, hcount₁⟩ :=
    bsonEncode_seq_framing natMarshal (fun n => [n]) [7]
      (by intro x hx; rfl) (by simp)
  refine ⟨?_, ?_, ?_, ?_⟩
  · rw [henc]; rfl
  · have := hcount (by
      intro x hx
      exact countSep_singleton x)
    simpa [joinSep, bsonSep] using this
  · rw [henc₁]; rfl
  · exact hcount₁ 7 rfl (countSep_singleton 7)

/-- C5: a slice whose elements marshal to separator-free, non-empty
documents and unmarshal back to themselves round-trips through the BSON
multi-document framing: encoding then decoding into a pointed-to empty slice
reproduces the slice, same length, same elements, original order. -/
theorem bson_seq_roundTrip {α : Type}
    (marshal : α → Except GoErr (List Nat))
    (dec : List Nat → Except GoErr α) (docOf : α → List Nat) (xs : List α)
    (h : ∀ x ∈ xs, marshal x = .ok (docOf x) ∧ dec (docOf x) = .ok x
          ∧ countSep (docOf x) = 0 ∧ docOf x ≠ []) :
    ∃ bytes, bsonEncode marshal (.seq xs) = .ok bytes
      ∧ decodeMany dec true [] bytes = .ok xs := by
  refine ⟨joinSep (xs.map docOf),
    encodeMany_eq_joinSep marshal docOf xs (fun x hx => (h x hx).1), ?_⟩
  unfold decodeMany
  simp only [Bool.not_true, if_false]
  rw [splitBson_joinSep (xs.map docOf) ?_]
  · simpa using decodeChunks_map dec docOf xs []
      (fun x hx => (h x hx).2.1)
  · intro doc hdoc
    obtain ⟨x, hx, rfl⟩ := List.mem_map.mp hdoc
    exact ⟨(h x hx).2.2.1, (h x hx).2.2.2⟩

/-- Witness for `bson_seq_roundTrip` on two one-byte documents. -/
theorem bson_seq_roundTrip_witness :
    ∃ bytes, bsonEncode natMarshal (.seq [7, 8]) = .ok bytes
      ∧ decodeMany natUnmarshal true [] bytes = .ok [7, 8] := by
  refine bson_seq_roundTrip natMarshal natUnmarshal (fun n => [n]) [7, 8] ?_
  intro x hx
  have : x = 7 ∨ x = 8 := by simpa using hx
  rcases this with rfl | rfl
  · exact ⟨rfl, rfl, countSep_singleton 7, by simp⟩
  · exact ⟨rfl, rfl, countSep_singleton 8, by simp⟩

/-- C10: decoding a zero-length payload into a pointer-to-slice receiver
succeeds without appending anything: the scanner produces no tokens for
empty input at end of stream, so the receiver keeps its prior (empty)
contents. -/
theorem decodeMany_empty_payload {α : Type}
    (dec : List Nat → Except GoErr α) (init : List α) :
    decodeMany dec true init [] = .ok init
    ∧ splitBson ([] : List Nat) = [] := by
  constructor
  · unfold decodeMany
    simp only [Bool.not_true, if_false]
    rw [splitBson_nil]
    rfl
  · exact splitBson_nil

/-! ### C6: the JSON extensions for BSON types are encode-only -/

/-- C6 counterexample: a `primitive.Binary` of subtype `0x5` refutes the
encode half of the claim — `jsonExtBsonBinary.ConvertExt` panics on it, so
`Engine.Encode` of content containing it returns an error, not success. -/
theorem jsonExt_encode_unsupported_counterexample :
    jsonExtBsonBinary_ConvertExt ⟨0x5, []⟩ =
      .panicked (.new "unsupported Binary BSON format")
    ∧ engineEncode engJsonBinEncode JSON .goOther [] =
        .err (.wrapf "encode err"
          (.wrapf "panic during encode" (.new "unsupported Binary BSON format")))
    ∧ ¬ engineEncode engJsonBinEncode JSON .goOther [] = .ok := by
  refine ⟨by decide, by decide, by decide⟩

/-- C6 (amended): decoding JSON into a receiver whose populated field has
the raw sub-document type or the tagged-binary type always fails with the
documented 'not supported' error and no panic reaches the engine's caller;
encoding succeeds for raw documents that unmarshal cleanly and for
tagged-binary values of subtype `0x0`, or subtype `0x3` with a 16-byte
payload, while any other subtype yields a contained unsupported-format
error. -/
theorem jsonExt_encode_only_spec (dest value : JsonExtValue)
    (engine : EngineM) (bytes : List Nat)
    (unmarshalMap : List Nat → Except GoErr Unit) (raw : List Nat)
    (b : PrimitiveBinary) :
    (jsonExtBsonRaw_UpdateExt dest value =
      .panicked (.new "Decoding to BSON raw field not supported"))
    ∧ (jsonExtBsonBinary_UpdateExt dest value =
      .panicked (.new ("decoding to bson binary field not supported -- " ++
        "use uuid or BinData type as intermediary")))
    ∧ (engine.decoders JSON = some jsonDecodeIntoBsonRaw →
        engineDecode engine JSON .goOther bytes =
          .err (.wrapf "decode err" (.wrapf "panic during decode"
            (.new "Decoding to BSON raw field not supported")))
        ∧ ∀ v, engineDecode engine JSON .goOther bytes ≠ .panicked v)
    ∧ (engine.decoders JSON = some jsonDecodeIntoBsonBinary →
        engineDecode engine JSON .goOther bytes =
          .err (.wrapf "decode err" (.wrapf "panic during decode"
            (.new ("decoding to bson binary field not supported -- " ++
              "use uuid or BinData type as intermediary"))))
        ∧ ∀ v, engineDecode engine JSON .goOther bytes ≠ .panicked v)
    ∧ (b.subtype = 0x0 →
        jsonExtBsonBinary_ConvertExt b = .ok (.binDataVal b.data))
    ∧ (b.subtype = 0x3 → b.data.length = 16 →
        jsonExtBsonBinary_ConvertExt b = .ok (.uuidVal b.data))
    ∧ (b.subtype ≠ 0x0 → b.subtype ≠ 0x3 →
        jsonExtBsonBinary_ConvertExt b =
          .panicked (.new "unsupported Binary BSON format"))
    ∧ (unmarshalMap raw = .ok () →
        jsonExtBsonRaw_ConvertExt unmarshalMap raw = .ok .mapVal) := by
  have hu : pickContentMimeType JSON .goOther false ≠ UNKNOWN := by decide
  have hpick : pickContentMimeType JSON .goOther false = JSON := by decide
  have hne : JSON ≠ UNKNOWN := by decide
  refine ⟨rfl, rfl, ?_, ?_, ?_, ?_, ?_, ?_⟩
  · intro hdec
    have hsd : safeDecode jsonDecodeIntoBsonRaw bytes =
        .err (.wrapf "panic during decode"
          (.new "Decoding to BSON raw field not supported")) := rfl
    have hres : engineDecode engine JSON .goOther bytes =
        .err (.wrapf "decode err" (.wrapf "panic during decode"
          (.new "Decoding to BSON raw field not supported"))) := by
      simp [engineDecode, hu, hpick, hdec, hsd, hne]
    exact ⟨hres, fun v => by rw [hres]; simp⟩
  · intro hdec
    have hsd : safeDecode jsonDecodeIntoBsonBinary bytes =
        .err (.wrapf "panic during decode"
          (.new ("decoding to bson binary field not supported -- " ++
            "use uuid or BinData type as intermediary"))) := rfl
    have hres : engineDecode engine JSON .goOther bytes =
        .err (.wrapf "decode err" (.wrapf "panic during decode"
          (.new ("decoding to bson binary field not supported -- " ++
            "use uuid or BinData type as intermediary")))) := by
      simp [engineDecode, hu, hpick, hdec, hsd, hne]
    exact ⟨hres, fun v => by rw [hres]; simp⟩
  · intro hsub
    simp [jsonExtBsonBinary_ConvertExt, hsub]
  · intro hsub hlen
    simp [jsonExtBsonBinary_ConvertExt, hsub, hlen]
  · intro hs0 hs3
    simp [jsonExtBsonBinary_ConvertExt, hs0, hs3]
  · intro hok
    by_cases hlen : raw.length > 0
    · simp [jsonExtBsonRaw_ConvertExt, hlen, hok]
    · simp [jsonExtBsonRaw_ConvertExt, hlen]

/-- Witness for `jsonExt_encode_only_spec` on concrete engines and
values. -/
theorem jsonExt_encode_only_spec_witness :
    engineDecode engJsonRawReceiver JSON .goOther [] =
      .err (.wrapf "decode err" (.wrapf "panic during decode"
        (.new "Decoding to BSON raw field not supported")))
    ∧ engineDecode engJsonBinReceiver JSON .goOther [] =
        .err (.wrapf "decode err" (.wrapf "panic during decode"
          (.new ("decoding to bson binary field not supported -- " ++
            "use uuid or BinData type as intermediary"))))
    ∧ jsonExtBsonBinary_ConvertExt ⟨0, [1, 2]⟩ = .ok (.binDataVal [1, 2])
    ∧ jsonExtBsonRaw_ConvertExt (fun _ => .ok ()) [5, 0, 0, 0, 0] =
        .ok .mapVal := by
  have h₁ := jsonExt_encode_only_spec .mapVal .mapVal engJsonRawReceiver []
    (fun _ => .ok ()) [5, 0, 0, 0, 0] ⟨0, [1, 2]⟩
  have h₂ := jsonExt_encode_only_spec .mapVal .mapVal engJsonBinReceiver []
    (fun _ => .ok ()) [5, 0, 0, 0, 0] ⟨0, [1, 2]⟩
  refine ⟨(h₁.2.2.1 rfl).1, (h₂.2.2.2.1 rfl).1, ?_, ?_⟩
  · exact h₁.2.2.2.2.1 rfl
  · exact h₁.2.2.2.2.2.2.2 rfl

/-! ### C7: ErrorFromHeaders -/

/-- C7 counterexample: a present but non-integer `error-code` still yields
`hasError = false`, so header absence is not the sole source of
`hasError = false`. -/
theorem errorFromHeaders_counterexample :
    ¬ headersNonIntCode "error-code" = ""
    ∧ (ErrorFromHeaders uuidParseAlways jsonParseAlways headersNonIntCode
        (some (fun _ => none))).hasError = false
    ∧ (ErrorFromHeaders uuidParseAlways jsonParseAlways headersNonIntCode
        (some (fun _ => none))).err = some .errorCodeNotInt := by
  refine ⟨by decide, rfl, rfl⟩

/-- C7 (amended): `hasError` is false exactly when the `error-code` header
is absent or its value is not an integer (the code deliberately treats a
non-integer code as "no error"); once an integer code is present, a nil
code→type index, an unrecognized code, an invalid error-id and an
undecodable error-data field each yield their own distinct failure reason
(distinct constructors with distinct messages). -/
theorem errorFromHeaders_spec (uuidParse : String → Option String)
    (jsonParse : String → Option Unit) (headers : String → String)
    (index : Option (Int → Option SpanErrorType)) :
    ((ErrorFromHeaders uuidParse jsonParse headers index).hasError = false ↔
      (headers "error-code" = "" ∨ goAtoi (headers "error-code") = none))
    ∧ (headers "error-code" = "" →
        (ErrorFromHeaders uuidParse jsonParse headers index).err =
          some .noErrorInHeaders)
    ∧ (headers "error-code" ≠ "" → goAtoi (headers "error-code") = none →
        (ErrorFromHeaders uuidParse jsonParse headers index).err =
          some .errorCodeNotInt)
    ∧ (∀ code, goAtoi (headers "error-code") = some code → index = none →
        (ErrorFromHeaders uuidParse jsonParse headers index).err =
          some .noErrorIndexProvided)
    ∧ (∀ code idx, goAtoi (headers "error-code") = some code →
        index = some idx → idx code = none →
        (ErrorFromHeaders uuidParse jsonParse headers index).err =
          some (.noKnownErrorForCode (headers "error-code")))
    ∧ (∀ code idx et, goAtoi (headers "error-code") = some code →
        index = some idx → idx code = some et →
        uuidParse (headers "error-id") = none →
        (ErrorFromHeaders uuidParse jsonParse headers index).err =
          some .errorIdNotValidUUID)
    ∧ (∀ code idx et uid, goAtoi (headers "error-code") = some code →
        index = some idx → idx code = some et →
        uuidParse (headers "error-id") = some uid →
        headers "error-data" ≠ "" → jsonParse (headers "error-data") = none →
        (ErrorFromHeaders uuidParse jsonParse headers index).err =
          some .errorDataNotJSON)
    ∧ List.Pairwise
        (fun a b => a ≠ b ∧ HeadersErr.message a ≠ HeadersErr.message b)
        [HeadersErr.noErrorInHeaders, .errorCodeNotInt, .noErrorIndexProvided,
         .noKnownErrorForCode "9999", .errorIdNotValidUUID,
         .errorDataNotJSON] := by
  have hempty : headers "error-code" = "" → goAtoi (headers "error-code") = none := by
    intro h; rw [h]; rfl
  refine ⟨?_, ?_, ?_, ?_, ?_, ?_, ?_, by decide⟩
  · by_cases h0 : headers "error-code" = ""
    · simp [ErrorFromHeaders, h0]
    · cases hA : goAtoi (headers "error-code") with
      | none => simp [ErrorFromHeaders, h0, hA]
      | some code =>
          have htrue :
              (ErrorFromHeaders uuidParse jsonParse headers index).hasError = true := by
            cases hI : index with
            | none => simp [ErrorFromHeaders, h0, hA, hI]
            | some idx =>
                cases hidx : idx code with
                | none => simp [ErrorFromHeaders, h0, hA, hI, hidx]
                | some et =>
                    cases hu : uuidParse (headers "error-id") with
                    | none => simp [ErrorFromHeaders, h0, hA, hI, hidx, hu]
                    | some uid =>
                        by_cases hd : headers "error-data" = ""
                        · simp [ErrorFromHeaders, h0, hA, hI, hidx, hu, hd]
                        · cases hj : jsonParse (headers "error-data") with
                          | none =>
                              simp [ErrorFromHeaders, h0, hA, hI, hidx, hu, hd, hj]
                          | some u =>
                              simp [ErrorFromHeaders, h0, hA, hI, hidx, hu, hd, hj]
          simp [htrue, h0, hA]
  · intro h0
    simp [ErrorFromHeaders, h0]
  · intro h0 hA
    simp [ErrorFromHeaders, h0, hA]
  · intro code hA hI
    have h0 : headers "error-code" ≠ "" := fun h => by
      rw [hempty h] at hA; cases hA
    simp [ErrorFromHeaders, h0, hA, hI]
  · intro code idx hA hI hidx
    have h0 : headers "error-code" ≠ "" := fun h => by
      rw [hempty h] at hA; cases hA
    simp [ErrorFromHeaders, h0, hA, hI, hidx]
  · intro code idx et hA hI hidx hu
    have h0 : headers "error-code" ≠ "" := fun h => by
      rw [hempty h] at hA; cases hA
    simp [ErrorFromHeaders, h0, hA, hI, hidx, hu]
  · intro code idx et uid hA hI hidx hu hd hj
    have h0 : headers "error-code" ≠ "" := fun h => by
      rw [hempty h] at hA; cases hA
    simp [ErrorFromHeaders, h0, hA, hI, hidx, hu, hd, hj]

/-- Witness for `errorFromHeaders_spec` at concrete header stores. -/
theorem errorFromHeaders_spec_witness :
    (ErrorFromHeaders uuidParseAlways jsonParseAlways (fun _ => "")
      none).hasError = false
    ∧ (ErrorFromHeaders uuidParseAlways jsonParseAlways (fun _ => "")
        none).err = some .noErrorInHeaders
    ∧ (ErrorFromHeaders uuidParseAlways jsonParseAlways
        (fun k => if k = "error-code" then "1005" else "") none).err =
        some .noErrorIndexProvided
    ∧ (ErrorFromHeaders uuidParseAlways jsonParseAlways
        (fun k => if k = "error-code" then "9999" else "")
        (some (fun _ => none))).err = some (.noKnownErrorForCode "9999") := by
  have h₁ := errorFromHeaders_spec uuidParseAlways jsonParseAlways
    (fun _ => "") none
  have h₂ := errorFromHeaders_spec uuidParseAlways jsonParseAlways
    (fun k => if k = "error-code" then "1005" else "") none
  have h₃ := errorFromHeaders_spec uuidParseAlways jsonParseAlways
    (fun k => if k = "error-code" then "9999" else "")
    (some (fun _ => none))
  refine ⟨h₁.1.mpr (Or.inl rfl), h₁.2.1 rfl, ?_, ?_⟩
  · exact h₂.2.2.2.1 1005 (by decide) rfl
  · exact h₃.2.2.2.2.1 9999 (fun _ => none) (by decide) rfl rfl

/-! ### C9: paging headers -/

/-- C9 counterexample: `TotalItems = 0` and `CurrentPage = -2` are not the
sentinel `-1`, yet `ToHeaders` omits their keys — the code writes the totals
only when positive and the current page only when greater than `-1`. -/
theorem pagingResp_toHeaders_counterexample :
    ((0 : Int) ≠ -1
      ∧ hasHeader (PagingResp.toHeaders ⟨⟨0, 0⟩, 0, 5, 2, "", ""⟩)
          "paging-total-items" = false)
    ∧ ((-2 : Int) ≠ -1
      ∧ hasHeader (PagingResp.toHeaders ⟨⟨0, 0⟩, 5, 5, -2, "", ""⟩)
          "paging-current-page" = false) := by
  refine ⟨⟨by decide, by decide⟩, ⟨by decide, by decide⟩⟩

/-- C9 (amended): `ToHeaders` always writes `paging-offset`; writes
`paging-limit` iff `Limit > 0`; writes `paging-total-items` and
`paging-total-pages` iff the field is positive, and `paging-current-page`
iff it exceeds `-1` (not merely "≠ -1"); writes `paging-next` and
`paging-previous` iff non-empty; every written value is the field's value
verbatim. -/
theorem pagingResp_toHeaders_spec (p : PagingResp) :
    getHeader p.toHeaders "paging-offset" = some (toString p.req.offset)
    ∧ getHeader p.toHeaders "paging-limit" =
        (if p.req.limit > 0 then some (toString p.req.limit) else none)
    ∧ getHeader p.toHeaders "paging-total-items" =
        (if p.totalItems > 0 then some (toString p.totalItems) else none)
    ∧ getHeader p.toHeaders "paging-total-pages" =
        (if p.totalPages > 0 then some (toString p.totalPages) else none)
    ∧ getHeader p.toHeaders "paging-current-page" =
        (if p.currentPage > -1 then some (toString p.currentPage) else none)
    ∧ getHeader p.toHeaders "paging-previous" =
        (if p.previous ≠ "" then some p.previous else none)
    ∧ getHeader p.toHeaders "paging-next" =
        (if p.next ≠ "" then some p.next else none) := by
  by_cases h1 : p.req.limit > 0 <;>
    by_cases h2 : p.totalItems > 0 <;>
      by_cases h3 : p.totalPages > 0 <;>
        by_cases h4 : p.currentPage > -1 <;>
          by_cases h5 : p.previous = "" <;>
            by_cases h6 : p.next = "" <;>
              simp [PagingResp.toHeaders, PagingReq.toParams, getHeader,
                h1, h2, h3, h4, h5, h6, List.find?]

/-- Witness for `engine_panic_safety` on the panicking sample engine. -/
theorem engine_panic_safety_witness :
    engineDecode engPanicking JSON .goOther [] =
      .err (.wrapf "decode err" (.wrapf "panic during decode" (.new "decode boom")))
    ∧ engineEncode engPanicking JSON .goOther [] =
        .err (.wrapf "encode err" (.wrapf "panic during encode" (.new "encode boom")))
    ∧ engineDecode engPanicking JSON .goOther [] ≠ .panicked (.new "decode boom") := by
  have h := engine_panic_safety engPanicking JSON .goOther []
  refine ⟨?_, ?_, h.1 (.new "decode boom")⟩
  · exact (h.2.2.1 (panickingDecoder "decode boom") (.new "decode boom")
      rfl (by decide) rfl).1
  · exact (h.2.2.2 (fun _ => .panicked (.new "encode boom")) (.new "encode boom")
      rfl rfl).1

end Spantools
